import Mathlib

/-!
Verification of the batch source-rewrite pipeline in
`src/updates/2025-09-04/transform_upstream.py`.

The script applies ten ordered `re.sub` calls to each candidate file's
text, writes the result via a temp-file-then-rename discipline that
refuses empty output, and aggregates per-file success into an exit code.

We embed the program shallowly: text is `List Char`; each `re.sub` call
becomes a scanner (`tryPackage` .. `tryCase`) that decides whether the
pattern matches at the current position (with the exact greedy and
backtracking semantics of the Python pattern) together with a generic
leftmost / non-overlapping substitution driver `reSub`; the filesystem
is an association list from paths to contents; `main` is modelled over
that filesystem, with an uncaught read error represented by
`RunResult.raise`.
-/

namespace TransformUpstream

/-- Python `\s` on ASCII text: space, tab, newline, carriage return,
vertical tab, form feed. -/
def isWs (c : Char) : Bool :=
  c == ' ' || c == '\t' || c == '\n' || c == '\r' || c == '\x0b' || c == '\x0c'

/-- Python `\w` on ASCII text: letters, digits, underscore. -/
def isWordChar (c : Char) : Bool :=
  c.isAlphanum || c == '_'

/-- Length of the maximal whitespace run at the head of `s`. -/
def wsLen (s : List Char) : Nat :=
  (s.takeWhile isWs).length

/-- `^` under `re.M`: at the start of the string or right after a newline.
`prev` is the character preceding the current scan position. -/
def atLineStart : Option Char → Bool
  | none => true
  | some c => c == '\n'

/-- `\b` immediately before a word character: holds when the preceding
character is absent or not a word character. -/
def wbBefore : Option Char → Bool
  | none => true
  | some c => !(isWordChar c)

/-- One step of `re.sub`: scan left to right; at each position ask the
scanner for a match (consumed length, must be positive, and replacement);
on a match, emit the replacement and continue after the matched text,
remembering the last matched character for the `^` and `\b` context.
Replacements are never rescanned, exactly as in `re.sub`.  The fuel is
an upper bound on the number of scan steps; `reSub` supplies the string
length, which suffices because every accepted match consumes at least
one character. -/
def reSubGo (tryM : Option Char → List Char → Option (Nat × List Char)) :
    Nat → Option Char → List Char → List Char
  | 0, _, s => s
  | _ + 1, _, [] => []
  | fuel + 1, prev, c :: rest =>
    match tryM prev (c :: rest) with
    | some (k, repl) =>
      if k == 0 then c :: reSubGo tryM fuel (some c) rest
      else repl ++ reSubGo tryM fuel (((c :: rest).take k).getLastD c) ((c :: rest).drop k)
    | none => c :: reSubGo tryM fuel (some c) rest

/-- `re.sub` with a per-position scanner, over a whole string. -/
def reSub (tryM : Option Char → List Char → Option (Nat × List Char))
    (s : List Char) : List Char :=
  reSubGo tryM s.length none s

/-- Tail `\s*\n` (as in `;\s*\n`): greedy `\s*` backtracks until the next
character is a newline, i.e. the match consumes the whitespace run up to
and including its last newline.  Returns the consumed length. -/
def lastNl : List Char → Option Nat
  | [] => none
  | c :: rest =>
    match lastNl rest with
    | some i => some (i + 1)
    | none => if c == '\n' then some 0 else none

/-- Consumed length of `\s*\n` at the head of `s`, if it matches. -/
def nlTail (s : List Char) : Option Nat :=
  match lastNl (s.takeWhile isWs) with
  | some i => some (i + 1)
  | none => none

/-- `re.sub(r'^package\s+jdk\.internal\.util\.json;', 'package jdk.sandbox.internal.util.json;', text, flags=re.M)`:
match attempt at one position. -/
def tryPackage (prev : Option Char) (s : List Char) : Option (Nat × List Char) :=
  if !(atLineStart prev) then none
  else if ("package").data.isPrefixOf s then
    let s1 := s.drop 7
    let w := wsLen s1
    if w == 0 then none
    else if ("jdk.internal.util.json;").data.isPrefixOf (s1.drop w) then
      some (7 + w + 23, ("package jdk.sandbox.internal.util.json;").data)
    else none
  else none

/-- `re.sub(r'^(\s*import\s+)java\.util\.json\.', r'\1jdk.sandbox.java.util.json.', text, flags=re.M)`:
match attempt at one position; the replacement re-emits group 1. -/
def tryImportApi (prev : Option Char) (s : List Char) : Option (Nat × List Char) :=
  if !(atLineStart prev) then none
  else
    let w1 := wsLen s
    if ("import").data.isPrefixOf (s.drop w1) then
      let s1 := s.drop (w1 + 6)
      let w2 := wsLen s1
      if w2 == 0 then none
      else if ("java.util.json.").data.isPrefixOf (s1.drop w2) then
        some (w1 + 6 + w2 + 15, s.take (w1 + 6 + w2) ++ ("jdk.sandbox.java.util.json.").data)
      else none
    else none

/-- `re.sub(r'^\s*@(?:jdk\.internal\..*|ValueBased|StableValue).*\n', '', text, flags=re.M)`:
match attempt at one position.  Whichever alternative matches, the match
then extends over the rest of the line and requires a final newline. -/
def tryAnnotation (prev : Option Char) (s : List Char) : Option (Nat × List Char) :=
  if !(atLineStart prev) then none
  else
    let w := wsLen s
    match s.drop w with
    | '@' :: s2 =>
      if ("jdk.internal.").data.isPrefixOf s2 || ("ValueBased").data.isPrefixOf s2
          || ("StableValue").data.isPrefixOf s2 then
        let b := (s2.takeWhile (fun c => !(c == '\n'))).length
        match s2.drop b with
        | '\n' :: _ => some (w + 1 + b + 1, [])
        | _ => none
      else none
    | _ => none

/-- `re.sub(r'^\s*import\s+jdk\.internal\.ValueBased;\s*\n', '', text, flags=re.M)`:
match attempt at one position. -/
def tryValueBasedImport (prev : Option Char) (s : List Char) : Option (Nat × List Char) :=
  if !(atLineStart prev) then none
  else
    let w1 := wsLen s
    if ("import").data.isPrefixOf (s.drop w1) then
      let s1 := s.drop (w1 + 6)
      let w2 := wsLen s1
      if w2 == 0 then none
      else if ("jdk.internal.ValueBased;").data.isPrefixOf (s1.drop w2) then
        match nlTail (s1.drop (w2 + 24)) with
        | some t => some (w1 + 6 + w2 + 24 + t, [])
        | none => none
      else none
    else none

/-- `re.sub(r'\bimplements\s+JsonValueImpl\s*,\s*', 'implements ', text)`:
match attempt at one position. -/
def tryImplFirst (prev : Option Char) (s : List Char) : Option (Nat × List Char) :=
  if !(wbBefore prev) then none
  else if ("implements").data.isPrefixOf s then
    let s1 := s.drop 10
    let w1 := wsLen s1
    if w1 == 0 then none
    else if ("JsonValueImpl").data.isPrefixOf (s1.drop w1) then
      let s2 := s1.drop (w1 + 13)
      let w2 := wsLen s2
      match s2.drop w2 with
      | ',' :: s3 => some (10 + w1 + 13 + w2 + 1 + wsLen s3, ("implements ").data)
      | _ => none
    else none
  else none

/-- Inner attempt for the mid-list rule with group 1 fixed to `t.take j`:
checks the `\b`, the literal `JsonValueImpl`, then `\s*` and the
`(,\s*)` group.  Returns (consumed length from `t`, group 1). -/
def implMidAt (t : List Char) (j : Nat) : Option (Nat × List Char) :=
  let bOk :=
    if j == 0 then true
    else
      match t.drop (j - 1) with
      | c :: _ => !(isWordChar c)
      | [] => false
  if bOk then
    if ("JsonValueImpl").data.isPrefixOf (t.drop j) then
      let u := t.drop (j + 13)
      let w2 := wsLen u
      match u.drop w2 with
      | ',' :: u2 => some (j + 13 + w2 + 1 + wsLen u2, t.take j)
      | _ => none
    else none
  else none

/-- Greedy backtracking over the group `([^\{\n]*)`: try the longest
group first, then shorter ones. -/
def implMidJ (t : List Char) : Nat → Option (Nat × List Char)
  | 0 => implMidAt t 0
  | j + 1 =>
    match implMidAt t (j + 1) with
    | some r => some r
    | none => implMidJ t j

/-- Greedy backtracking over `\s+` after `implements` (at least one
whitespace character, longest first); `s1` is the text right after the
`implements` literal. -/
def implMidK (s1 : List Char) : Nat → Option (Nat × List Char)
  | 0 => none
  | k + 1 =>
    let t := s1.drop (k + 1)
    let L := (t.takeWhile (fun c => !(c == '\x7b') && !(c == '\n'))).length
    match implMidJ t L with
    | some r => some (10 + (k + 1) + r.1, ("implements ").data ++ r.2)
    | none => implMidK s1 k

/-- `re.sub(r'\bimplements\s+([^\{\n]*)\bJsonValueImpl\s*(,\s*)', lambda m: 'implements '+m.group(1), text)`:
match attempt at one position. -/
def tryImplMid (prev : Option Char) (s : List Char) : Option (Nat × List Char) :=
  if !(wbBefore prev) then none
  else if ("implements").data.isPrefixOf s then
    implMidK (s.drop 10) (wsLen (s.drop 10))
  else none

/-- `re.sub(r'\bimplements\s+JsonValueImpl\b\s*', '', text)`:
match attempt at one position. -/
def tryImplSole (prev : Option Char) (s : List Char) : Option (Nat × List Char) :=
  if !(wbBefore prev) then none
  else if ("implements").data.isPrefixOf s then
    let s1 := s.drop 10
    let w1 := wsLen s1
    if w1 == 0 then none
    else if ("JsonValueImpl").data.isPrefixOf (s1.drop w1) then
      let s2 := s1.drop (w1 + 13)
      let bOk :=
        match s2 with
        | [] => true
        | c :: _ => !(isWordChar c)
      if bOk then some (10 + w1 + 13 + wsLen s2, [])
      else none
    else none
  else none

/-- Inner attempt for the stray-import rule with `.*` fixed to `u.take j`:
checks the literal `JsonValueImpl;` then the `\s*\n` tail.  Returns the
consumed length from `u`. -/
def implImportAt (u : List Char) (j : Nat) : Option Nat :=
  if ("JsonValueImpl;").data.isPrefixOf (u.drop j) then
    match nlTail (u.drop (j + 14)) with
    | some t => some (j + 14 + t)
    | none => none
  else none

/-- Greedy backtracking over `.*` (longest first). -/
def implImportJ (u : List Char) : Nat → Option Nat
  | 0 => implImportAt u 0
  | j + 1 =>
    match implImportAt u (j + 1) with
    | some r => some r
    | none => implImportJ u j

/-- Greedy backtracking over `\s+` after `import` (at least one
whitespace character, longest first); `s1` is the text right after the
`import` literal. -/
def implImportK (s1 : List Char) : Nat → Option Nat
  | 0 => none
  | k + 1 =>
    let u := s1.drop (k + 1)
    let L := (u.takeWhile (fun c => !(c == '\n'))).length
    match implImportJ u L with
    | some c => some ((k + 1) + c)
    | none => implImportK s1 k

/-- `re.sub(r'^\s*import\s+.*JsonValueImpl;\s*\n', '', text, flags=re.M)`:
match attempt at one position. -/
def tryImplImport (prev : Option Char) (s : List Char) : Option (Nat × List Char) :=
  if !(atLineStart prev) then none
  else
    let w1 := wsLen s
    if ("import").data.isPrefixOf (s.drop w1) then
      let s1 := s.drop (w1 + 6)
      match implImportK s1 (wsLen s1) with
      | some c => some (w1 + 6 + c, [])
      | none => none
    else none

/-- `re.sub(r'catch\s*\(([^\)]*)_\)', r'catch(\1e)', text)`:
match attempt at one position.  The greedy `[^\)]*` cannot pass the
closing parenthesis, so the pattern matches exactly when the maximal
run of non-`)` characters after `(` is nonempty, ends in `_`, and is
followed by `)`. -/
def tryCatch (prev : Option Char) (s : List Char) : Option (Nat × List Char) :=
  if ("catch").data.isPrefixOf s then
    let s1 := s.drop 5
    let w := wsLen s1
    match s1.drop w with
    | '(' :: s2 =>
      let run := s2.takeWhile (fun c => !(c == ')'))
      match s2.drop run.length with
      | ')' :: _ =>
        match run.getLast? with
        | some '_' => some (5 + w + 1 + run.length + 1, ("catch(").data ++ run.dropLast ++ ("e)").data)
        | _ => none
      | _ => none
    | _ => none
  else none

/-- Character class `[A-Za-z0-9_$.<>\[\]]` of the `case` rule. -/
def isCaseCls (c : Char) : Bool :=
  c.isAlphanum || c == '_' || c == '$' || c == '.' || c == '<' || c == '>' || c == '[' || c == ']'

/-- `re.sub(r'case\s+([A-Za-z0-9_$.<>\[\]]+)\s+_\s*->', r'case \1 v ->', text)`:
match attempt at one position.  The group class contains no whitespace,
so only the maximal class run can be followed by `\s+`. -/
def tryCase (prev : Option Char) (s : List Char) : Option (Nat × List Char) :=
  if ("case").data.isPrefixOf s then
    let s1 := s.drop 4
    let w1 := wsLen s1
    if w1 == 0 then none
    else
      let run := (s1.drop w1).takeWhile isCaseCls
      if run.length == 0 then none
      else
        let s2 := s1.drop (w1 + run.length)
        let w2 := wsLen s2
        if w2 == 0 then none
        else
          match s2.drop w2 with
          | '_' :: s3 =>
            let w3 := wsLen s3
            if ("->").data.isPrefixOf (s3.drop w3) then
              some (4 + w1 + run.length + w2 + 1 + w3 + 2, ("case ").data ++ run ++ (" v ->").data)
            else none
          | _ => none
  else none

/-- `transform(text, name)` of the script: the ten `re.sub` calls in
source order.  The `name` parameter is accepted and ignored, exactly as
in the source. -/
def transform (text : List Char) (name : List Char) : List Char :=
  let t1 := reSub tryPackage text
  let t2 := reSub tryImportApi t1
  let t3 := reSub tryAnnotation t2
  let t4 := reSub tryValueBasedImport t3
  let t5 := reSub tryImplFirst t4
  let t6 := reSub tryImplMid t5
  let t7 := reSub tryImplSole t6
  let t8 := reSub tryImplImport t7
  let t9 := reSub tryCatch t8
  reSub tryCase t9

/-! ## Filesystem model and the batch driver -/

/-- Paths and file contents are character lists. -/
abbrev Path := List Char

/-- Lookup in an association-list filesystem. -/
def fsGet : List (Path × List Char) → Path → Option (List Char)
  | [], _ => none
  | (k, v) :: rest, p => if k = p then some v else fsGet rest p

/-- Create or overwrite a file. -/
def fsSet : List (Path × List Char) → Path → List Char → List (Path × List Char)
  | [], p, v => [(p, v)]
  | (k, w) :: rest, p, v => if k = p then (p, v) :: rest else (k, w) :: fsSet rest p v

/-- Delete a file (no effect if absent). -/
def fsRemove : List (Path × List Char) → Path → List (Path × List Char)
  | [], _ => []
  | (k, w) :: rest, p => if k = p then fsRemove rest p else (k, w) :: fsRemove rest p

/-- `SRC` constant of the script. -/
def SRC : Path := ("updates/2025-09-04/upstream/jdk.internal.util.json").data

/-- `DST` constant of the script. -/
def DST : Path := ("json-java21/src/main/java/jdk/sandbox/internal/util/json").data

/-- `os.path.join(d, n)` for a directory and a bare filename. -/
def pathJoin (d : Path) (n : Path) : Path := d ++ '/' :: n

/-- `name.endswith('.java')`. -/
def isJava (n : Path) : Bool := decide ((".java").data <:+ n)

/-- `name in ('StableValue.java', 'Utils.java')`. -/
def excludedName (n : Path) : Bool :=
  decide (n = ("StableValue.java").data ∨ n = ("Utils.java").data)

/-- `read(path)`: returns the file's text, or `none` when opening raises
`IOError` (file absent/unreadable). -/
def read (files : List (Path × List Char)) (path : Path) : Option (List Char) :=
  fsGet files path

/-- `write_safe(path, text)`: write `text` to `path + '.tmp'`; if the
temporary file is empty, remove it and return `False`; otherwise remove
any existing destination and rename the temporary file into place,
returning `True`.  Returns the updated filesystem and the flag. -/
def write_safe (files : List (Path × List Char)) (path : Path) (text : List Char) :
    List (Path × List Char) × Bool :=
  let tmp := path ++ (".tmp").data
  let files1 := fsSet files tmp text
  if text.length = 0 then
    (fsRemove files1 tmp, false)
  else
    let files2 := if (fsGet files1 path).isSome then fsRemove files1 path else files1
    (fsRemove (fsSet files2 path text) tmp, true)

/-- How an invocation of the script ends: `sys.exit(code)`, or an
uncaught exception (e.g. `IOError` from `read`). -/
inductive RunResult
  | exit : Nat → RunResult
  | raise : RunResult
deriving DecidableEq

/-- The state of the world the script runs in: which directories exist,
the files, and what `os.listdir(SRC)` returns. -/
structure Fs where
  dirs : List Path
  files : List (Path × List Char)
  listing : List Path

/-- The `for name in os.listdir(SRC)` loop of `main`, carrying the `ok`
accumulator.  A failed `read` is an uncaught `IOError`: the run ends in
`RunResult.raise` immediately, with no further file attempted. -/
def mainLoop : List (Path × List Char) → List Path → Bool →
    List (Path × List Char) × RunResult
  | files, [], ok => (files, if ok then RunResult.exit 0 else RunResult.exit 2)
  | files, n :: rest, ok =>
    if isJava n = false then mainLoop files rest ok
    else if excludedName n = true then mainLoop files rest ok
    else
      match read files (pathJoin SRC n) with
      | none => (files, RunResult.raise)
      | some data =>
        let out := transform data n
        let r := write_safe files (pathJoin DST n) out
        mainLoop r.1 rest (ok && r.2)

/-- `main()`: check that `SRC` and `DST` exist (else exit 1), then run
the loop over the listing. -/
def main (fs : Fs) : List (Path × List Char) × RunResult :=
  if SRC ∈ fs.dirs then
    if DST ∈ fs.dirs then mainLoop fs.files fs.listing true
    else (fs.files, RunResult.exit 1)
  else (fs.files, RunResult.exit 1)

/-- Spec-side predicate for claim C9, following the spec's words: the
line consists solely of leading whitespace plus `@` plus a marker name
from the allow-list (`ValueBased`, `StableValue`, or a name under
`jdk.internal.`), and nothing else. -/
def specSolelyAnnotationLine (line : List Char) : Bool :=
  let body := line.drop (wsLen line)
  match body with
  | '@' :: m =>
    decide (m = ("ValueBased").data) || decide (m = ("StableValue").data)
      || ("jdk.internal.").data.isPrefixOf m
  | _ => false

/-! ## Concrete fixtures used by witnesses and counterexamples -/

/-- A three-file batch: `A.java` and `C.java` transform to nonempty
output, `B.java` is empty (so its write fails); the destination already
holds an old version of `B.java`. -/
def fsBatch : Fs :=
  { dirs := [SRC, DST]
  , files := [ (pathJoin SRC (("A.java").data), ("x").data)
             , (pathJoin SRC (("B.java").data), [])
             , (pathJoin SRC (("C.java").data), ("y").data)
             , (pathJoin DST (("B.java").data), ("old").data) ]
  , listing := [("A.java").data, ("B.java").data, ("C.java").data] }

/-- The source contents of `fsBatch`, as a function of the filename. -/
def contentBatch : Path → List Char :=
  fun n =>
    if n = ("A.java").data then ("x").data
    else if n = ("C.java").data then ("y").data
    else []

/-- A batch whose first candidate `A.java` is listed but cannot be read
(`read` raises), while `B.java` is present and readable. -/
def fsReadErr : Fs :=
  { dirs := [SRC, DST]
  , files := [ (pathJoin SRC (("B.java").data), ("x").data) ]
  , listing := [("A.java").data, ("B.java").data] }

/-- A destination path and a one-file filesystem used by the safe-writer
witness. -/
def wsPath : Path := ("d/f.java").data

/-- The filesystem for the safe-writer witness: the destination already
holds content `old`. -/
def wsFiles : List (Path × List Char) := [(wsPath, ("old").data)]

/-- A batch whose listing contains only the excluded `Utils.java`; the
destination holds a hand-maintained version. -/
def fsExcl : Fs :=
  { dirs := [SRC, DST]
  , files := [ (pathJoin SRC (("Utils.java").data), ("u").data)
             , (pathJoin DST (("Utils.java").data), ("keep").data) ]
  , listing := [("Utils.java").data] }

end TransformUpstream

namespace TransformUpstream

/-! ## Association-list filesystem lemmas -/

lemma fsGet_fsSet (files : List (Path × List Char)) (p : Path) (v : List Char) (q : Path) :
    fsGet (fsSet files p v) q = if p = q then some v else fsGet files q := by
  induction files with
  | nil => simp [fsSet, fsGet]
  | cons kv rest ih =>
    obtain ⟨k, w⟩ := kv
    by_cases hk : k = p
    · subst hk
      by_cases hq : k = q <;> simp [fsSet, fsGet, hq]
    · by_cases hq : k = q
      · subst hq
        have hpk : ¬ p = k := fun h => hk h.symm
        simp [fsSet, fsGet, hk, hpk]
      · simp [fsSet, fsGet, hk, hq, ih]

lemma fsGet_fsRemove (files : List (Path × List Char)) (p : Path) (q : Path) :
    fsGet (fsRemove files p) q = if p = q then none else fsGet files q := by
  induction files with
  | nil => simp [fsRemove, fsGet]
  | cons kv rest ih =>
    obtain ⟨k, w⟩ := kv
    by_cases hk : k = p
    · subst hk
      by_cases hq : k = q
      · subst hq
        simp [fsRemove, fsGet, ih]
      · simp [fsRemove, fsGet, hq, ih]
    · by_cases hq : k = q
      · subst hq
        have hpq : ¬ p = k := fun h => hk h.symm
        simp [fsRemove, fsGet, hk, hpq]
      · simp [fsRemove, fsGet, hk, hq, ih]

/-! ## Path disjointness lemmas -/

lemma self_ne_append_tmp (p : Path) : p ≠ p ++ (".tmp").data := by
  intro h
  have h4 : ((".tmp").data).length = 4 := rfl
  have hl := congrArg List.length h
  rw [List.length_append, h4] at hl
  omega

lemma pathJoin_inj {d n m : Path} (h : pathJoin d n = pathJoin d m) : n = m := by
  unfold pathJoin at h
  have h2 := List.append_cancel_left h
  exact (List.cons.injEq _ _ _ _ ▸ h2).2

lemma srcKey_ne_dstKey (x m : Path) : pathJoin SRC x ≠ pathJoin DST m := by
  intro h
  have h2 := congrArg List.head? h
  have e1 : (pathJoin SRC x).head? = some 'u' := rfl
  have e2 : (pathJoin DST m).head? = some 'j' := rfl
  rw [e1, e2] at h2
  exact absurd (Option.some.inj h2) (by decide)

lemma srcKey_ne_dstTmp (x m : Path) :
    pathJoin SRC x ≠ pathJoin DST m ++ (".tmp").data := by
  intro h
  have h2 := congrArg List.head? h
  have e1 : (pathJoin SRC x).head? = some 'u' := rfl
  have e2 : (pathJoin DST m ++ (".tmp").data).head? = some 'j' := rfl
  rw [e1, e2] at h2
  exact absurd (Option.some.inj h2) (by decide)

lemma append_java_ne_append_tmp (t m : List Char) :
    t ++ ((".java").data) ≠ m ++ ((".tmp").data) := by
  intro h
  have h2 := congrArg (fun l => l.reverse.head?) h
  simp only [List.reverse_append] at h2
  have e1 : (((".java").data).reverse ++ t.reverse).head? = some 'a' := rfl
  have e2 : (((".tmp").data).reverse ++ m.reverse).head? = some 'p' := rfl
  rw [e1, e2] at h2
  exact absurd (Option.some.inj h2) (by decide)

lemma isJava_suffix {n : Path} (h : isJava n = true) :
    ∃ t, t ++ ((".java").data) = n := by
  have hs : ((".java").data) <:+ n := of_decide_eq_true h
  exact hs

lemma dstKey_ne_dstTmp {n : Path} (m : Path) (hn : isJava n = true) :
    pathJoin DST n ≠ pathJoin DST m ++ (".tmp").data := by
  intro h
  obtain ⟨t, rfl⟩ := isJava_suffix hn
  unfold pathJoin at h
  rw [List.append_assoc] at h
  have h2 := List.append_cancel_left h
  have h3 : t ++ ((".java").data) = m ++ ((".tmp").data) :=
    (List.cons.injEq _ _ _ _ ▸ h2).2
  exact append_java_ne_append_tmp t m h3

/-! ## `write_safe` lemmas -/

lemma write_safe_snd (f : List (Path × List Char)) (p : Path) (t : List Char) :
    (write_safe f p t).2 = !t.isEmpty := by
  simp only [write_safe]
  cases t <;> simp

lemma write_safe_get_other (f : List (Path × List Char)) (p : Path) (t : List Char)
    (q : Path) (h1 : q ≠ p) (h2 : q ≠ p ++ (".tmp").data) :
    fsGet (write_safe f p t).1 q = fsGet f q := by
  simp only [write_safe]
  split_ifs with ht hs
  · simp [fsGet_fsRemove, fsGet_fsSet, Ne.symm h1, Ne.symm h2]
  · simp [fsGet_fsRemove, fsGet_fsSet, Ne.symm h1, Ne.symm h2]
  · simp [fsGet_fsRemove, fsGet_fsSet, Ne.symm h1, Ne.symm h2]

lemma write_safe_get_self (f : List (Path × List Char)) (p : Path) (t : List Char)
    (ht : t ≠ []) :
    fsGet (write_safe f p t).1 p = some t := by
  have hne : p ++ (".tmp").data ≠ p := Ne.symm (self_ne_append_tmp p)
  simp only [write_safe]
  split_ifs with hl hs
  · exact absurd (List.length_eq_zero.mp hl) ht
  · simp [fsGet_fsRemove, fsGet_fsSet, hne]
  · simp [fsGet_fsRemove, fsGet_fsSet, hne]

lemma write_safe_empty_frame (f : List (Path × List Char)) (p : Path) (t : List Char)
    (q : Path) (ht : t = []) (h2 : q ≠ p ++ (".tmp").data) :
    fsGet (write_safe f p t).1 q = fsGet f q := by
  subst ht
  simp only [write_safe]
  simp [fsGet_fsRemove, fsGet_fsSet, Ne.symm h2]

lemma write_safe_tmp_none (f : List (Path × List Char)) (p : Path) (t : List Char) :
    fsGet (write_safe f p t).1 (p ++ (".tmp").data) = none := by
  simp only [write_safe]
  split_ifs with ht hs
  · simp [fsGet_fsRemove]
  · simp [fsGet_fsRemove]
  · simp [fsGet_fsRemove]

lemma bool_not_isEmpty_iff (l : List Char) : ((!l.isEmpty) = true) ↔ l ≠ [] := by
  cases l <;> simp

/-! ## Batch-driver loop lemmas -/

lemma mainLoop_nil (files : List (Path × List Char)) (ok : Bool) :
    mainLoop files [] ok = (files, if ok then RunResult.exit 0 else RunResult.exit 2) := rfl

/-- Processing a list of candidates only creates or changes files at the
candidates' destination paths and their temporaries. -/
lemma mainLoop_frame (q : Path) :
    ∀ (names : List Path) (files : List (Path × List Char)) (ok : Bool),
      (∀ x ∈ names, isJava x = true → excludedName x = false →
        q ≠ pathJoin DST x ∧ q ≠ pathJoin DST x ++ (".tmp").data) →
      fsGet (mainLoop files names ok).1 q = fsGet files q := by
  intro names
  induction names with
  | nil => intro files ok _; rw [mainLoop_nil]
  | cons m rest ih =>
    intro files ok h
    have hrest : ∀ x ∈ rest, isJava x = true → excludedName x = false →
        q ≠ pathJoin DST x ∧ q ≠ pathJoin DST x ++ (".tmp").data :=
      fun x hx => h x (List.mem_cons_of_mem m hx)
    cases hj : isJava m with
    | false =>
      simp only [mainLoop, hj, if_pos]
      exact ih files ok hrest
    | true =>
      cases hx : excludedName m with
      | true =>
        simp [mainLoop, hj, hx]
        exact ih files ok hrest
      | false =>
        obtain ⟨hq1, hq2⟩ := h m (List.mem_cons_self m rest) hj hx
        cases hr : read files (pathJoin SRC m) with
        | none => simp [mainLoop, hj, hx, hr]
        | some data =>
          simp only [mainLoop, hj, hx, hr]
          simp only [Bool.false_eq_true, if_false, Bool.true_eq_false, if_false]
          rw [ih _ _ hrest, write_safe_get_other _ _ _ _ hq1 hq2]

/-- With every candidate readable, the loop never raises: it ends in
exit code 0 or 2. -/
lemma mainLoop_no_raise (content : Path → List Char) :
    ∀ (names : List Path) (files : List (Path × List Char)) (ok : Bool),
      (∀ n ∈ names, isJava n = true → excludedName n = false →
        fsGet files (pathJoin SRC n) = some (content n)) →
      (mainLoop files names ok).2 = RunResult.exit 0 ∨
        (mainLoop files names ok).2 = RunResult.exit 2 := by
  intro names
  induction names with
  | nil =>
    intro files ok _
    rw [mainLoop_nil]
    cases ok <;> simp
  | cons m rest ih =>
    intro files ok hread
    have hrest0 : ∀ n ∈ rest, isJava n = true → excludedName n = false →
        fsGet files (pathJoin SRC n) = some (content n) :=
      fun x hx => hread x (List.mem_cons_of_mem m hx)
    cases hj : isJava m with
    | false =>
      simp only [mainLoop, hj, if_pos]
      exact ih files ok hrest0
    | true =>
      cases hx : excludedName m with
      | true =>
        simp only [mainLoop, hj]
        simp only [Bool.true_eq_false, if_false, hx, if_pos]
        exact ih files ok hrest0
      | false =>
        have hr : read files (pathJoin SRC m) = some (content m) :=
          hread m (List.mem_cons_self m rest) hj hx
        have hrest : ∀ n ∈ rest, isJava n = true → excludedName n = false →
            fsGet (write_safe files (pathJoin DST m) (transform (content m) m)).1
              (pathJoin SRC n) = some (content n) := by
          intro x hxm hj2 hx2
          rw [write_safe_get_other _ _ _ _ (srcKey_ne_dstKey x m) (srcKey_ne_dstTmp x m)]
          exact hrest0 x hxm hj2 hx2
        simp only [mainLoop, hj, hx, hr]
        simp only [Bool.true_eq_false, if_false, Bool.false_eq_true, if_false]
        exact ih _ _ hrest

/-- The loop's exit code is 0 exactly when the accumulator was true and
every candidate's transformed output is nonempty. -/
lemma mainLoop_exit_iff (content : Path → List Char) :
    ∀ (names : List Path) (files : List (Path × List Char)) (ok : Bool),
      (∀ n ∈ names, isJava n = true → excludedName n = false →
        fsGet files (pathJoin SRC n) = some (content n)) →
      ((mainLoop files names ok).2 = RunResult.exit 0 ↔
        (ok = true ∧ ∀ n ∈ names, isJava n = true → excludedName n = false →
          transform (content n) n ≠ [])) := by
  intro names
  induction names with
  | nil =>
    intro files ok _
    rw [mainLoop_nil]
    cases ok <;> simp
  | cons m rest ih =>
    intro files ok hread
    have hrest0 : ∀ n ∈ rest, isJava n = true → excludedName n = false →
        fsGet files (pathJoin SRC n) = some (content n) :=
      fun x hx => hread x (List.mem_cons_of_mem m hx)
    cases hj : isJava m with
    | false =>
      simp only [mainLoop, hj, if_pos]
      rw [ih files ok hrest0]
      simp [List.forall_mem_cons, hj]
    | true =>
      cases hx : excludedName m with
      | true =>
        simp only [mainLoop, hj]
        simp only [Bool.true_eq_false, if_false, hx, if_pos]
        rw [ih files ok hrest0]
        simp [List.forall_mem_cons, hj, hx]
      | false =>
        have hr : read files (pathJoin SRC m) = some (content m) :=
          hread m (List.mem_cons_self m rest) hj hx
        have hrest : ∀ n ∈ rest, isJava n = true → excludedName n = false →
            fsGet (write_safe files (pathJoin DST m) (transform (content m) m)).1
              (pathJoin SRC n) = some (content n) := by
          intro x hxm hj2 hx2
          rw [write_safe_get_other _ _ _ _ (srcKey_ne_dstKey x m) (srcKey_ne_dstTmp x m)]
          exact hrest0 x hxm hj2 hx2
        simp only [mainLoop, hj, hx, hr]
        simp only [Bool.true_eq_false, if_false, Bool.false_eq_true, if_false]
        rw [ih _ _ hrest]
        rw [Bool.and_eq_true, write_safe_snd, bool_not_isEmpty_iff]
        simp only [List.forall_mem_cons, hj, hx]
        simp only [forall_const]
        rw [and_assoc]

/-- Destination contents after the loop: a candidate with nonempty
output ends up written with exactly that output; a candidate with empty
output leaves its destination untouched. -/
lemma mainLoop_dst (content : Path → List Char) :
    ∀ (names : List Path), names.Nodup →
      ∀ (files : List (Path × List Char)) (ok : Bool),
      (∀ n ∈ names, isJava n = true → excludedName n = false →
        fsGet files (pathJoin SRC n) = some (content n)) →
      ∀ n ∈ names, isJava n = true → excludedName n = false →
        (transform (content n) n ≠ [] →
          fsGet (mainLoop files names ok).1 (pathJoin DST n) = some (transform (content n) n)) ∧
        (transform (content n) n = [] →
          fsGet (mainLoop files names ok).1 (pathJoin DST n) = fsGet files (pathJoin DST n)) := by
  intro names
  induction names with
  | nil =>
    intro _ files ok _ n hn
    exact absurd hn (List.not_mem_nil n)
  | cons m rest ih =>
    intro hnd files ok hread n hn hjn hxn
    obtain ⟨hm_rest, hnd_rest⟩ := List.nodup_cons.mp hnd
    have hrest0 : ∀ x ∈ rest, isJava x = true → excludedName x = false →
        fsGet files (pathJoin SRC x) = some (content x) :=
      fun x hx => hread x (List.mem_cons_of_mem m hx)
    rcases List.mem_cons.mp hn with hnm | hn_rest
    · subst hnm
      have hr : read files (pathJoin SRC n) = some (content n) :=
        hread n (List.mem_cons_self n rest) hjn hxn
      have hframe : ∀ x ∈ rest, isJava x = true → excludedName x = false →
          pathJoin DST n ≠ pathJoin DST x ∧
          pathJoin DST n ≠ pathJoin DST x ++ (".tmp").data := by
        intro x hx hjx hxx
        refine ⟨fun h => ?_, dstKey_ne_dstTmp x hjn⟩
        exact hm_rest (pathJoin_inj h ▸ hx)
      simp only [mainLoop, hjn, hxn, hr]
      simp only [Bool.true_eq_false, if_false, Bool.false_eq_true, if_false]
      rw [mainLoop_frame _ _ _ _ hframe]
      constructor
      · intro hne
        exact write_safe_get_self _ _ _ hne
      · intro heq
        exact write_safe_empty_frame _ _ _ _ heq (self_ne_append_tmp (pathJoin DST n))
    · have hne_nm : n ≠ m := fun h => hm_rest (h ▸ hn_rest)
      cases hj : isJava m with
      | false =>
        simp only [mainLoop, hj, if_pos]
        exact ih hnd_rest files ok hrest0 n hn_rest hjn hxn
      | true =>
        cases hx : excludedName m with
        | true =>
          simp only [mainLoop, hj]
          simp only [Bool.true_eq_false, if_false, hx, if_pos]
          exact ih hnd_rest files ok hrest0 n hn_rest hjn hxn
        | false =>
          have hr : read files (pathJoin SRC m) = some (content m) :=
            hread m (List.mem_cons_self m rest) hj hx
          have hrest : ∀ x ∈ rest, isJava x = true → excludedName x = false →
              fsGet (write_safe files (pathJoin DST m) (transform (content m) m)).1
                (pathJoin SRC x) = some (content x) := by
            intro x hxm hj2 hx2
            rw [write_safe_get_other _ _ _ _ (srcKey_ne_dstKey x m) (srcKey_ne_dstTmp x m)]
            exact hrest0 x hxm hj2 hx2
          have hkey1 : pathJoin DST n ≠ pathJoin DST m :=
            fun h => hne_nm (pathJoin_inj h)
          have hkey2 : pathJoin DST n ≠ pathJoin DST m ++ (".tmp").data :=
            dstKey_ne_dstTmp m hjn
          simp only [mainLoop, hj, hx, hr]
          simp only [Bool.true_eq_false, if_false, Bool.false_eq_true, if_false]
          have hrec := ih hnd_rest _ (ok && (write_safe files (pathJoin DST m)
            (transform (content m) m)).2) hrest n hn_rest hjn hxn
          refine ⟨hrec.1, fun heq => ?_⟩
          rw [hrec.2 heq, write_safe_get_other _ _ _ _ hkey1 hkey2]

/-- The loop ignores every occurrence of an excluded name: filtering an
excluded name out of the listing does not change the run at all. -/
lemma mainLoop_filter_excluded (n : Path) (hx : excludedName n = true) :
    ∀ (names : List Path) (files : List (Path × List Char)) (ok : Bool),
      mainLoop files (names.filter (fun m => !(m == n))) ok = mainLoop files names ok := by
  intro names
  induction names with
  | nil => intro files ok; rfl
  | cons m rest ih =>
    intro files ok
    by_cases hm : m = n
    · subst hm
      have hf : (m :: rest).filter (fun x => !(x == m)) = rest.filter (fun x => !(x == m)) := by
        simp [List.filter_cons]
      rw [hf, ih files ok]
      cases hj : isJava m with
      | false => simp [mainLoop, hj]
      | true => simp [mainLoop, hj, hx]
    · have hf : (m :: rest).filter (fun x => !(x == n)) =
          m :: rest.filter (fun x => !(x == n)) := by
        simp [List.filter_cons, hm]
      rw [hf]
      cases hj : isJava m with
      | false =>
        simp only [mainLoop, hj, if_pos]
        exact ih files ok
      | true =>
        cases hxm : excludedName m with
        | true =>
          simp only [mainLoop, hj]
          simp only [Bool.true_eq_false, if_false, hxm, if_pos]
          exact ih files ok
        | false =>
          cases hr : read files (pathJoin SRC m) with
          | none => simp [mainLoop, hj, hxm, hr]
          | some data =>
            simp only [mainLoop, hj, hxm, hr]
            simp only [Bool.true_eq_false, if_false, Bool.false_eq_true, if_false]
            exact ih _ _

/-! ## Claim theorems -/

/-- C1: if `write_safe` is given a zero-length buffer, it reports
failure (`false`), deletes the temporary file, leaves the destination's
prior content byte-identical, and more generally touches no path other
than the temporary. -/
theorem write_safe_empty_output_guard (files : List (Path × List Char))
    (path : Path) (text : List Char) (h : text.length = 0) :
    (write_safe files path text).2 = false ∧
    fsGet (write_safe files path text).1 (path ++ (".tmp").data) = none ∧
    fsGet (write_safe files path text).1 path = fsGet files path ∧
    (∀ q, q ≠ path ++ (".tmp").data →
      fsGet (write_safe files path text).1 q = fsGet files q) := by
  have ht : text = [] := List.length_eq_zero.mp h
  refine ⟨?_, write_safe_tmp_none files path text, ?_, ?_⟩
  · rw [write_safe_snd, ht]
    rfl
  · exact write_safe_empty_frame files path text path ht (self_ne_append_tmp path)
  · exact fun q hq => write_safe_empty_frame files path text q ht hq

/-- Witness for C1 at a concrete destination holding prior content. -/
theorem write_safe_empty_output_guard_witness :
    ([] : List Char).length = 0 ∧
    ((write_safe wsFiles wsPath []).2 = false ∧
      fsGet (write_safe wsFiles wsPath []).1 (wsPath ++ (".tmp").data) = none ∧
      fsGet (write_safe wsFiles wsPath []).1 wsPath = fsGet wsFiles wsPath ∧
      (∀ q, q ≠ wsPath ++ (".tmp").data →
        fsGet (write_safe wsFiles wsPath []).1 q = fsGet wsFiles q)) :=
  ⟨rfl, write_safe_empty_output_guard wsFiles wsPath [] rfl⟩

/-- C2: an excluded filename (`StableValue.java` or `Utils.java`) is
never processed by a batch run: the run is identical to a run whose
listing has that name filtered out (so the file is never read or
transformed), and the destination file's content after the run is
byte-identical to its content before. -/
theorem excluded_file_untouched (fs : Fs) (n : Path)
    (hx : n = ("StableValue.java").data ∨ n = ("Utils.java").data) :
    fsGet (main fs).1 (pathJoin DST n) = fsGet fs.files (pathJoin DST n) ∧
    main fs = main (Fs.mk fs.dirs fs.files
      (fs.listing.filter (fun m => !(m == n)))) := by
  have hxb : excludedName n = true := by
    rcases hx with h | h <;> subst h <;> decide
  have hjn : isJava n = true := by
    rcases hx with h | h <;> subst h <;> decide
  constructor
  · unfold main
    split_ifs with h1 h2
    · apply mainLoop_frame
      intro x hx2 hjx hxx
      refine ⟨fun hkey => ?_, dstKey_ne_dstTmp x hjn⟩
      rw [pathJoin_inj hkey, hxx] at hxb
      exact Bool.false_ne_true hxb
    · rfl
    · rfl
  · simp only [main]
    split_ifs with h1 h2
    · exact (mainLoop_filter_excluded n hxb fs.listing fs.files true).symm
    · rfl
    · rfl

/-- Witness for C2: a run over a listing containing only `Utils.java`,
with a hand-maintained destination copy. -/
theorem excluded_file_untouched_witness :
    (("Utils.java").data = ("StableValue.java").data ∨
      ("Utils.java").data = ("Utils.java").data) ∧
    (fsGet (main fsExcl).1 (pathJoin DST (("Utils.java").data)) =
        fsGet fsExcl.files (pathJoin DST (("Utils.java").data)) ∧
      main fsExcl = main (Fs.mk fsExcl.dirs fsExcl.files
        (fsExcl.listing.filter (fun m => !(m == ("Utils.java").data))))) :=
  ⟨Or.inr rfl, excluded_file_untouched fsExcl (("Utils.java").data) (Or.inr rfl)⟩

/-- C3: with both directories present and every candidate readable, the
driver attempts every candidate: it never raises, the exit status is 0
exactly when every candidate's write succeeded (nonempty output), every
candidate with nonempty output has its transformed text written even
when other candidates fail, and a failing candidate's destination is
left untouched. -/
theorem batch_attempts_all_and_exit_status (fs : Fs) (content : Path → List Char)
    (h1 : SRC ∈ fs.dirs) (h2 : DST ∈ fs.dirs) (hnd : fs.listing.Nodup)
    (hread : ∀ n ∈ fs.listing, isJava n = true → excludedName n = false →
      fsGet fs.files (pathJoin SRC n) = some (content n)) :
    ((main fs).2 = RunResult.exit 0 ↔
      ∀ n ∈ fs.listing, isJava n = true → excludedName n = false →
        transform (content n) n ≠ []) ∧
    ((main fs).2 = RunResult.exit 0 ∨ (main fs).2 = RunResult.exit 2) ∧
    (∀ n ∈ fs.listing, isJava n = true → excludedName n = false →
      (transform (content n) n ≠ [] →
        fsGet (main fs).1 (pathJoin DST n) = some (transform (content n) n)) ∧
      (transform (content n) n = [] →
        fsGet (main fs).1 (pathJoin DST n) = fsGet fs.files (pathJoin DST n))) := by
  have hm : main fs = mainLoop fs.files fs.listing true := by
    unfold main
    rw [if_pos h1, if_pos h2]
  rw [hm]
  refine ⟨?_, mainLoop_no_raise content _ _ _ hread,
    mainLoop_dst content _ hnd _ _ hread⟩
  rw [mainLoop_exit_iff content _ _ _ hread]
  simp

/-- Witness for C3: the three-file batch of `fsBatch`, where `B.java`
produces empty output and the other two files succeed. -/
theorem batch_attempts_all_and_exit_status_witness :
    (SRC ∈ fsBatch.dirs ∧ DST ∈ fsBatch.dirs ∧ fsBatch.listing.Nodup ∧
      (∀ n ∈ fsBatch.listing, isJava n = true → excludedName n = false →
        fsGet fsBatch.files (pathJoin SRC n) = some (contentBatch n))) ∧
    (((main fsBatch).2 = RunResult.exit 0 ↔
        ∀ n ∈ fsBatch.listing, isJava n = true → excludedName n = false →
          transform (contentBatch n) n ≠ []) ∧
      ((main fsBatch).2 = RunResult.exit 0 ∨ (main fsBatch).2 = RunResult.exit 2) ∧
      (∀ n ∈ fsBatch.listing, isJava n = true → excludedName n = false →
        (transform (contentBatch n) n ≠ [] →
          fsGet (main fsBatch).1 (pathJoin DST n) = some (transform (contentBatch n) n)) ∧
        (transform (contentBatch n) n = [] →
          fsGet (main fsBatch).1 (pathJoin DST n) =
            fsGet fsBatch.files (pathJoin DST n)))) :=
  ⟨⟨by decide, by decide, by decide, by decide⟩,
    batch_attempts_all_and_exit_status fsBatch contentBatch
      (by decide) (by decide) (by decide) (by decide)⟩

/-- C4 counterexample: the full pipeline is not idempotent.  On this
input the sole-interface rule deletes `implements JsonValueImpl `,
which leaves a `package` declaration at the very start of the text;
only a second pass rewrites that declaration, so applying the pipeline
twice differs from applying it once. -/
theorem transform_not_idempotent_cex :
    transform (transform (("implements JsonValueImpl package jdk.internal.util.json;\n").data)
        (("A.java").data)) (("A.java").data) ≠
      transform (("implements JsonValueImpl package jdk.internal.util.json;\n").data)
        (("A.java").data) := by
  decide

set_option maxRecDepth 100000 in
/-- C4 (amended): the pipeline reaches a fixed point after one pass on
inputs where no rule's edit exposes a new match for an earlier rule —
in particular on each of the spec's example inputs and on a
representative upstream-shaped file exercising every rule — but not for
every input text. -/
theorem transform_idempotent_on_spec_examples :
    (transform (transform (("package jdk.internal.util.json;\n").data) (("A.java").data))
        (("A.java").data) =
      transform (("package jdk.internal.util.json;\n").data) (("A.java").data)) ∧
    (transform (transform (("implements JsonValueImpl, Other \x7b").data) (("A.java").data))
        (("A.java").data) =
      transform (("implements JsonValueImpl, Other \x7b").data) (("A.java").data)) ∧
    (transform (transform (("implements Other, JsonValueImpl \x7b").data) (("A.java").data))
        (("A.java").data) =
      transform (("implements Other, JsonValueImpl \x7b").data) (("A.java").data)) ∧
    (transform (transform (("implements JsonValueImpl \x7b").data) (("A.java").data))
        (("A.java").data) =
      transform (("implements JsonValueImpl \x7b").data) (("A.java").data)) ∧
    (transform (transform (("catch (IOException _) \x7b").data) (("A.java").data))
        (("A.java").data) =
      transform (("catch (IOException _) \x7b").data) (("A.java").data)) ∧
    (transform (transform (("package jdk.internal.util.json;\nimport java.util.json.JsonValue;\nimport jdk.internal.ValueBased;\nimport jdk.internal.util.json.JsonValueImpl;\n@ValueBased\nfinal class JsonNumberImpl implements JsonValueImpl, JsonNumber \x7b\n    \x7d catch (IOException _) \x7b\n    case Integer _ -> 1;\n\x7d\n").data)
        (("A.java").data)) (("A.java").data) =
      transform (("package jdk.internal.util.json;\nimport java.util.json.JsonValue;\nimport jdk.internal.ValueBased;\nimport jdk.internal.util.json.JsonValueImpl;\n@ValueBased\nfinal class JsonNumberImpl implements JsonValueImpl, JsonNumber \x7b\n    \x7d catch (IOException _) \x7b\n    case Integer _ -> 1;\n\x7d\n").data)
        (("A.java").data)) := by
  refine ⟨by decide, by decide, by decide, by decide, by decide, by decide⟩

/-- C5 counterexample: on `implements Other, JsonValueImpl {` — the
marker in last position, with no comma after it — the pipeline leaves
the text unchanged; it does not produce `implements Other {` as the
claim states. -/
theorem implements_marker_last_cex :
    transform (("implements Other, JsonValueImpl \x7b").data) (("A.java").data) =
      ("implements Other, JsonValueImpl \x7b").data ∧
    ("implements Other, JsonValueImpl \x7b").data ≠ ("implements Other \x7b").data := by
  refine ⟨by decide, by decide⟩

/-- C5 (amended): the marker-first and sole-marker positions are
rewritten as claimed, and a marker buried mid-list with a trailing comma
is removed; but a marker in last position (preceded by another name and
not followed by a comma) is left unchanged, because the mid-list rule
requires a comma after the marker. -/
theorem implements_rules_behavior :
    transform (("implements JsonValueImpl, Other \x7b").data) (("A.java").data) =
      ("implements Other \x7b").data ∧
    transform (("implements Other, JsonValueImpl \x7b").data) (("A.java").data) =
      ("implements Other, JsonValueImpl \x7b").data ∧
    transform (("implements JsonValueImpl \x7b").data) (("A.java").data) = ("\x7b").data ∧
    transform (("implements A, JsonValueImpl, B \x7b").data) (("A.java").data) =
      ("implements A, B \x7b").data := by
  refine ⟨by decide, by decide, by decide, by decide⟩

/-- C6 counterexample: the catch rule's replacement is `catch(\1e)`,
which does not preserve the whitespace between `catch` and the opening
parenthesis, so the output is not `catch (IOException e) {`. -/
theorem catch_rewrite_space_cex :
    transform (("catch (IOException _) \x7b").data) (("A.java").data) ≠
      ("catch (IOException e) \x7b").data := by
  decide

/-- C6 (amended): the unnamed catch binder is renamed to `e` with the
surrounding text preserved except that the whitespace between `catch`
and `(` is dropped by the replacement: the output is
`catch(IOException e) {`. -/
theorem catch_rewrite_behavior :
    transform (("catch (IOException _) \x7b").data) (("A.java").data) =
      ("catch(IOException e) \x7b").data := by
  decide

/-- C7 counterexample: in `fsReadErr` the first candidate `A.java` is
listed but unreadable; the run raises instead of recording a per-file
failure, and the readable second candidate `B.java` is never written. -/
theorem read_error_not_contained_cex :
    (main fsReadErr).2 = RunResult.raise ∧
    fsGet (main fsReadErr).1 (pathJoin DST (("B.java").data)) = none := by
  refine ⟨by decide, by decide⟩

/-- C7 (amended): only the empty-output write failure is converted into
a per-file outcome with the run continuing; an I/O error raised while
reading a candidate is not caught: the run aborts immediately with the
filesystem unchanged and the remaining candidates unattempted. -/
theorem read_error_aborts_batch (fs : Fs) (n : Path) (rest : List Path)
    (h1 : SRC ∈ fs.dirs) (h2 : DST ∈ fs.dirs) (hl : fs.listing = n :: rest)
    (hj : isJava n = true) (hx : excludedName n = false)
    (hmiss : fsGet fs.files (pathJoin SRC n) = none) :
    main fs = (fs.files, RunResult.raise) := by
  unfold main
  rw [if_pos h1, if_pos h2, hl]
  have hr : read fs.files (pathJoin SRC n) = none := hmiss
  simp [mainLoop, hj, hx, hr]

/-- Witness for the amended C7 at the concrete `fsReadErr`. -/
theorem read_error_aborts_batch_witness :
    (SRC ∈ fsReadErr.dirs ∧ DST ∈ fsReadErr.dirs ∧
      fsReadErr.listing = ("A.java").data :: [("B.java").data] ∧
      isJava (("A.java").data) = true ∧ excludedName (("A.java").data) = false ∧
      fsGet fsReadErr.files (pathJoin SRC (("A.java").data)) = none) ∧
    main fsReadErr = (fsReadErr.files, RunResult.raise) :=
  ⟨⟨by decide, by decide, rfl, by decide, by decide, by decide⟩,
    read_error_aborts_batch fsReadErr (("A.java").data) [("B.java").data]
      (by decide) (by decide) rfl (by decide) (by decide) (by decide)⟩

/-- C8: if the source or the destination directory is missing, `main`
exits immediately with status 1 and the filesystem is returned
unchanged — no file is read, transformed, or written. -/
theorem missing_dirs_abort (fs : Fs) (h : SRC ∉ fs.dirs ∨ DST ∉ fs.dirs) :
    main fs = (fs.files, RunResult.exit 1) := by
  unfold main
  rcases h with h | h
  · rw [if_neg h]
  · by_cases h2 : SRC ∈ fs.dirs
    · rw [if_pos h2, if_neg h]
    · rw [if_neg h2]

/-- Witness for C8: the destination directory is missing while sources
exist and are listed. -/
theorem missing_dirs_abort_witness :
    (SRC ∉ (Fs.mk [SRC] wsFiles [("A.java").data]).dirs ∨
      DST ∉ (Fs.mk [SRC] wsFiles [("A.java").data]).dirs) ∧
    main (Fs.mk [SRC] wsFiles [("A.java").data]) =
      ((Fs.mk [SRC] wsFiles [("A.java").data]).files, RunResult.exit 1) :=
  ⟨Or.inr (by decide), missing_dirs_abort _ (Or.inr (by decide))⟩

/-- C9 counterexample: the annotation rule deletes the whole line
`@ValueBased extra` although that line does not consist solely of an
allow-listed annotation — the trailing content after the marker is
ignored by the rule's `.*` tail. -/
theorem annotation_line_trailing_cex :
    transform (("A\n@ValueBased extra\nB\n").data) (("A.java").data) = ("A\nB\n").data ∧
    specSolelyAnnotationLine (("@ValueBased extra").data) = false := by
  refine ⟨by decide, by decide⟩

/-- C9 (amended): the rule deletes any line whose first non-whitespace
character sequence begins with `@` followed by `ValueBased`,
`StableValue`, or a `jdk.internal.`-prefixed name — regardless of what
else follows on the line (trailing content, or a longer annotation name
extending a marker, is deleted with it); a line where the marker appears
after other content, or whose annotation matches no marker prefix, is
not deleted. -/
theorem annotation_strip_behavior :
    transform (("A\n  @ValueBased\nB\n").data) (("A.java").data) = ("A\nB\n").data ∧
    transform (("A\n@ValueBased extra\nB\n").data) (("A.java").data) = ("A\nB\n").data ∧
    transform (("A\n@ValueBasedXyz\nB\n").data) (("A.java").data) = ("A\nB\n").data ∧
    transform (("A\n@jdk.internal.Foo bar\nB\n").data) (("A.java").data) = ("A\nB\n").data ∧
    transform (("A\nx @ValueBased\nB\n").data) (("A.java").data) =
      ("A\nx @ValueBased\nB\n").data ∧
    transform (("A\n@Other\nB\n").data) (("A.java").data) = ("A\n@Other\nB\n").data := by
  refine ⟨by decide, by decide, by decide, by decide, by decide, by decide⟩

/-- C10: `transform` is a total pure function of the text alone: it is
defined for every input, and its result never depends on the `name`
argument. -/
theorem transform_pure_name_independent :
    ∀ (t n1 n2 : List Char), transform t n1 = transform t n2 :=
  fun _ _ _ => rfl

end TransformUpstream
